import Mathlib

/-!
# Verification of the SFBAudioEngine gapless audio player

A shallow embedding of the `AudioPlayer` class (src/Player/AudioPlayer.h),
the `SFB::Mutex` wrapper and the engine described by the design document.
The repository snapshot contains only the two header files; where a claim
depends on behaviour whose implementation file is absent, the behaviour is
modelled from the specification text and the header doc comments, and each
such definition says so in its doc comment.
-/

set_option maxHeartbeats 1000000

/-! ## Controller-level player state (src/Player/AudioPlayer.h)

`SInt64` quantities are modelled as `Int`; `CFTimeInterval` (a floating
point count of seconds) is modelled as `ℚ`, which captures the delegation
structure of the inline member functions without modelling IEEE rounding. -/

/-- The observable controller state of an `AudioPlayer`.  The fields mirror
the data members read by the inline member functions of the header:
`mIsPlaying` (line 197) and the frame/time queries; the results of the
non-inline getters `GetTotalFrames`, `GetCurrentFrame`, `GetTotalTime` and
`GetCurrentTime` (whose implementation file is absent) are modelled as
state observations, and `deviceRunning` models whether the device I/O proc
is started. -/
structure PlayerState where
  mIsPlaying : Bool
  deviceRunning : Bool
  totalFrames : Int
  currentFrame : Int
  totalTime : ℚ
  currentTime : ℚ
  deriving Repr, DecidableEq

/-- `IsPlaying`, from the header (line 87): `return mIsPlaying;`. -/
def IsPlaying (p : PlayerState) : Bool :=
  p.mIsPlaying

/-- Modelled from the spec: `AudioPlayer.cpp` is absent.  §4.5: "`Pause`
stops the device I/O proc; state is preserved." -/
def Pause (p : PlayerState) : PlayerState :=
  { p with mIsPlaying := false, deviceRunning := false }

/-- Modelled from the spec: `AudioPlayer.cpp` is absent.  §4.5: "`Play`
starts it [the device I/O proc]." -/
def Play (p : PlayerState) : PlayerState :=
  { p with mIsPlaying := true, deviceRunning := true }

/-- `PlayPause`, from the header (line 84):
`IsPlaying() ? Pause() : Play();`. -/
def PlayPause (p : PlayerState) : PlayerState :=
  if IsPlaying p then Pause p else Play p

/-- `GetTotalFrames` is a non-inline member; modelled as reading the
corresponding state observation. -/
def GetTotalFrames (p : PlayerState) : Int :=
  p.totalFrames

/-- `GetCurrentFrame` is a non-inline member; modelled as reading the
corresponding state observation. -/
def GetCurrentFrame (p : PlayerState) : Int :=
  p.currentFrame

/-- Two's-complement wrap of a mathematical integer into the `SInt64`
range, modelling C arithmetic on 64-bit signed integers. -/
def wrapInt64 (x : Int) : Int :=
  (x + 2 ^ 63) % 2 ^ 64 - 2 ^ 63

/-- `GetRemainingFrames`, from the header (line 94):
`return GetTotalFrames() - GetCurrentFrame();` where the subtraction is
`SInt64` subtraction. -/
def GetRemainingFrames (p : PlayerState) : Int :=
  wrapInt64 (GetTotalFrames p - GetCurrentFrame p)

/-- `GetTotalTime` is a non-inline member; modelled as reading the
corresponding state observation. -/
def GetTotalTime (p : PlayerState) : ℚ :=
  p.totalTime

/-- `GetCurrentTime` is a non-inline member; modelled as reading the
corresponding state observation. -/
def GetCurrentTime (p : PlayerState) : ℚ :=
  p.currentTime

/-- `GetRemainingTime`, from the header (line 98):
`return GetTotalTime() - GetCurrentTime();`. -/
def GetRemainingTime (p : PlayerState) : ℚ :=
  GetTotalTime p - GetCurrentTime p

/-! ## The public control surface (header lines 82-150)

An embedding of the C++ signatures of the public controller operations,
used to check the claimed error-reporting convention. -/

/-- The C++ types appearing in the public member signatures of
`AudioPlayer`.  `errorKindRef` stands for an error-kind out-parameter
(no such type appears anywhere in the header). -/
inductive CppType where
  | void
  | boolTy
  | sint64
  | cfTimeInterval
  | cfurlRef
  | cfStringRef
  | audioDeviceID
  | float32Ref
  | float64Ref
  | uint32
  | float32
  | float64
  | streamVectorRef
  | audioStreamID
  | asbdRef
  | constAsbdRef
  | decoderPtr
  | errorKindRef
  deriving Repr, DecidableEq

/-- A C++ member function signature: name, return type, parameters. -/
structure MethodSig where
  name : String
  ret : CppType
  params : List CppType
  deriving Repr, DecidableEq

/-- The public controller operations declared in
src/Player/AudioPlayer.h lines 82-150, transcribed signature by
signature. -/
def publicControllerOps : List MethodSig :=
  [ { name := "Play", ret := .void, params := [] }
  , { name := "Pause", ret := .void, params := [] }
  , { name := "PlayPause", ret := .void, params := [] }
  , { name := "Stop", ret := .void, params := [] }
  , { name := "IsPlaying", ret := .boolTy, params := [] }
  , { name := "GetPlayingURL", ret := .cfurlRef, params := [] }
  , { name := "GetCurrentFrame", ret := .sint64, params := [] }
  , { name := "GetTotalFrames", ret := .sint64, params := [] }
  , { name := "GetRemainingFrames", ret := .sint64, params := [] }
  , { name := "GetCurrentTime", ret := .cfTimeInterval, params := [] }
  , { name := "GetTotalTime", ret := .cfTimeInterval, params := [] }
  , { name := "GetRemainingTime", ret := .cfTimeInterval, params := [] }
  , { name := "SeekForward", ret := .boolTy, params := [.cfTimeInterval] }
  , { name := "SeekBackward", ret := .boolTy, params := [.cfTimeInterval] }
  , { name := "SeekToTime", ret := .boolTy, params := [.cfTimeInterval] }
  , { name := "SeekToFrame", ret := .boolTy, params := [.sint64] }
  , { name := "SupportsSeeking", ret := .boolTy, params := [] }
  , { name := "GetMasterVolume", ret := .boolTy, params := [.float32Ref] }
  , { name := "SetMasterVolume", ret := .boolTy, params := [.float32] }
  , { name := "GetVolumeForChannel", ret := .boolTy, params := [.uint32, .float32Ref] }
  , { name := "SetVolumeForChannel", ret := .boolTy, params := [.uint32, .float32] }
  , { name := "CreateOutputDeviceUID", ret := .cfStringRef, params := [] }
  , { name := "SetOutputDeviceUID", ret := .boolTy, params := [.cfStringRef] }
  , { name := "GetOutputDeviceID", ret := .audioDeviceID, params := [] }
  , { name := "SetOutputDeviceID", ret := .boolTy, params := [.audioDeviceID] }
  , { name := "GetOutputDeviceSampleRate", ret := .boolTy, params := [.float64Ref] }
  , { name := "SetOutputDeviceSampleRate", ret := .boolTy, params := [.float64] }
  , { name := "OutputDeviceIsHogged", ret := .boolTy, params := [] }
  , { name := "StartHoggingOutputDevice", ret := .boolTy, params := [] }
  , { name := "StopHoggingOutputDevice", ret := .boolTy, params := [] }
  , { name := "GetOutputStreams", ret := .boolTy, params := [.streamVectorRef] }
  , { name := "GetOutputStreamVirtualFormat", ret := .boolTy, params := [.audioStreamID, .asbdRef] }
  , { name := "SetOutputStreamVirtualFormat", ret := .boolTy, params := [.audioStreamID, .constAsbdRef] }
  , { name := "GetOutputStreamPhysicalFormat", ret := .boolTy, params := [.audioStreamID, .asbdRef] }
  , { name := "SetOutputStreamPhysicalFormat", ret := .boolTy, params := [.audioStreamID, .constAsbdRef] }
  , { name := "EnqueueURL", ret := .boolTy, params := [.cfurlRef] }
  , { name := "EnqueueDecoder", ret := .boolTy, params := [.decoderPtr] }
  , { name := "ClearQueuedDecoders", ret := .boolTy, params := [] } ]

/-- Whether a signature returns a boolean success indicator. -/
def returnsBoolSuccess (m : MethodSig) : Bool :=
  m.ret == .boolTy

/-- Whether a signature takes an error-kind out-parameter. -/
def hasErrorOutParam (m : MethodSig) : Bool :=
  m.params.contains .errorKindRef

/-! ## `SFB::Mutex` (src/Metadata/SFBMonkeysAudioFile.h, Mutex wrapper)

Only the class declaration is present.  Modelled from the spec:
`Mutex.cpp` is absent; §9 says "the wrapped lock primitives reported
failure via thrown runtime errors", and the header doc comments give the
contracts: `Lock` returns true iff the lock was obtained and throws on
failure of the underlying pthread operation; `TryLock` returns whether
the lock is held; `Unlock` throws on failure.  The underlying
`pthread_mutex_*` call is modelled by its returned error code
(`0` = success, `EBUSY` = already locked for trylock, anything else a
failure). -/

/-- The POSIX `EBUSY` error code, returned by `pthread_mutex_trylock`
when the mutex is already locked; not a failure of the operation. -/
def EBUSY : Nat := 16

/-- A thrown `std::runtime_error`. -/
inductive CppException where
  | runtimeError
  deriving Repr, DecidableEq

/-- Modelled from the spec: `Mutex.cpp` is absent.  `Mutex::Lock` calls
`pthread_mutex_lock`; on error code 0 the lock was obtained and `true`
is returned, otherwise a `std::runtime_error` is thrown. -/
def Mutex.Lock (rc : Nat) : Except CppException Bool :=
  if rc = 0 then .ok true else .error .runtimeError

/-- Modelled from the spec: `Mutex.cpp` is absent.  `Mutex::Unlock` calls
`pthread_mutex_unlock`; on a non-zero error code a `std::runtime_error`
is thrown. -/
def Mutex.Unlock (rc : Nat) : Except CppException Unit :=
  if rc = 0 then .ok () else .error .runtimeError

/-- Modelled from the spec: `Mutex.cpp` is absent.  `Mutex::TryLock`
calls `pthread_mutex_trylock`; code 0 means the lock was acquired,
`EBUSY` means it was not (no error), and any other code is a failure
reported by throwing a `std::runtime_error`. -/
def Mutex.TryLock (rc : Nat) : Except CppException Bool :=
  if rc = 0 then .ok true
  else if rc = EBUSY then .ok false
  else .error .runtimeError

/-- Whether a pthread lock/unlock operation failed: any non-zero code. -/
def pthreadOpFails (rc : Nat) : Bool :=
  rc != 0

/-- Whether a `pthread_mutex_trylock` call failed: `EBUSY` merely
reports contention, so failure is any code other than `0` and `EBUSY`. -/
def pthreadTryFails (rc : Nat) : Bool :=
  rc != 0 && rc != EBUSY

/-- Whether a modelled operation threw. -/
def threw {α : Type} : Except CppException α → Bool
  | .error _ => true
  | .ok _ => false

/-! ## Canonical-form conversion (decode thread)

Modelled from the spec: the `DecoderStateData` / `PCMConverter`
conversion helpers' implementation files are absent.  §3 and the header
comment (AudioPlayer.h lines 64-65): audio is stored in the ring buffer
as deinterleaved, normalized `[-1, 1)` 64-bit floating point.  An
integer PCM sample of bit depth `b` is normalized by dividing by
`2^(b-1)`; an interleaved frame sequence is split into one list per
channel. -/

/-- Modelled from the spec: normalization of one signed integer PCM
sample of bit depth `bits` to the canonical floating-point domain. -/
def normalizeSample (bits : Nat) (s : Int) : ℚ :=
  (s : ℚ) / (2 ^ (bits - 1) : ℚ)

/-- Modelled from the spec: deinterleave an interleaved sample sequence
into `channels` per-channel lists; sample `i` of channel `c` is
interleaved sample `i * channels + c`. -/
def deinterleave (channels : Nat) (xs : List Int) : List (List Int) :=
  (List.range channels).map fun c =>
    (List.range (xs.length / channels)).map fun i =>
      xs.getD (i * channels + c) 0

/-- Modelled from the spec: the decode-thread conversion of an
interleaved integer PCM frame span of bit depth `bits` into the
canonical deinterleaved normalized double form. -/
def convertToCanonical (bits channels : Nat) (xs : List Int) : List (List ℚ) :=
  (deinterleave channels xs).map fun ch => ch.map (normalizeSample bits)

/-! ## CARingBuffer (spec §4.1)

Modelled from the spec: the `CARingBuffer` implementation file is
absent (only the forward declaration in the header).  §4.1: a lock-free
SPSC buffer whose capacity is a power of two; two cursors `writePos`,
`readPos`; available-to-read = `writePos - readPos`, available-to-write
= `capacityFrames - (writePos - readPos)`; wrap is handled by masking
with `capacity - 1`; short reads/writes transfer the actually-possible
count.  For the round-trip property the per-channel payload is modelled
as a single logical stream of frames of an arbitrary type `α`. -/

/-- The ring buffer: a power-of-two capacity, backing store indexed by
masked position, and the two monotone cursors. -/
structure CARingBuffer (α : Type) where
  capacityFrames : Nat
  buf : Nat → α
  writePos : Nat
  readPos : Nat

/-- `FramesAvailableToRead`, spec §4.1: `writePos - readPos`. -/
def FramesAvailableToRead {α : Type} (rb : CARingBuffer α) : Nat :=
  rb.writePos - rb.readPos

/-- `FramesAvailableToWrite`, spec §4.1:
`capacityFrames - (writePos - readPos)`. -/
def FramesAvailableToWrite {α : Type} (rb : CARingBuffer α) : Nat :=
  rb.capacityFrames - (rb.writePos - rb.readPos)

/-- Store successive samples at successive masked positions
(`pos &&& (capacity - 1)`), as the ring's write loop does. -/
def storeSamples {α : Type} (cap : Nat) (buf : Nat → α) (pos : Nat) :
    List α → Nat → α
  | [] => buf
  | x :: rest =>
    storeSamples cap (fun j => if j = pos &&& (cap - 1) then x else buf j)
      (pos + 1) rest

/-- `Write(frames, count)`, spec §4.1: transfers
`min count availableToWrite` frames and advances `writePos`; never
fails, a short write transfers what fits. -/
def RingWrite {α : Type} (rb : CARingBuffer α) (xs : List α) : CARingBuffer α :=
  let n := min xs.length (FramesAvailableToWrite rb)
  { rb with
    buf := storeSamples rb.capacityFrames rb.buf rb.writePos (xs.take n)
    writePos := rb.writePos + n }

/-- `Read(frames, count)`, spec §4.1: transfers
`min count availableToRead` frames from successive masked positions and
advances `readPos`; a short read returns what is available. -/
def RingRead {α : Type} (rb : CARingBuffer α) (m : Nat) :
    CARingBuffer α × List α :=
  let n := min m (FramesAvailableToRead rb)
  ({ rb with readPos := rb.readPos + n },
   (List.range n).map fun i => rb.buf ((rb.readPos + i) &&& (rb.capacityFrames - 1)))

/-- The frames currently in the buffer, oldest first: the contents of
the window `[readPos, writePos)` under the mask. -/
def unreadData {α : Type} (rb : CARingBuffer α) : List α :=
  (List.range (FramesAvailableToRead rb)).map fun i =>
    rb.buf ((rb.readPos + i) &&& (rb.capacityFrames - 1))

/-- One operation of an interleaved write/read sequence. -/
inductive RingOp (α : Type) where
  | write (xs : List α)
  | read (m : Nat)

/-- Run a sequence of operations, returning the final buffer. -/
def runRing {α : Type} (rb : CARingBuffer α) : List (RingOp α) → CARingBuffer α
  | [] => rb
  | .write xs :: ops => runRing (RingWrite rb xs) ops
  | .read m :: ops => runRing (RingRead rb m).1 ops

/-- The concatenation of the data returned by the reads of a run. -/
def ringReads {α : Type} (rb : CARingBuffer α) : List (RingOp α) → List α
  | [] => []
  | .write xs :: ops => ringReads (RingWrite rb xs) ops
  | .read m :: ops => (RingRead rb m).2 ++ ringReads (RingRead rb m).1 ops

/-- The concatenation of the data passed to the writes of a sequence. -/
def ringWrites {α : Type} : List (RingOp α) → List α
  | [] => []
  | .write xs :: ops => xs ++ ringWrites ops
  | .read _ :: ops => ringWrites ops

/-- Whether a sequence respects the available counts at every step:
each write count is at most the frames available to write and each read
count at most the frames available to read. -/
def respectsAvail {α : Type} (rb : CARingBuffer α) : List (RingOp α) → Bool
  | [] => true
  | .write xs :: ops =>
    decide (xs.length ≤ FramesAvailableToWrite rb) &&
      respectsAvail (RingWrite rb xs) ops
  | .read m :: ops =>
    decide (m ≤ FramesAvailableToRead rb) && respectsAvail (RingRead rb m).1 ops

/-- An empty ring buffer of the given capacity with cleared memory. -/
def emptyRing (α : Type) (cap : Nat) (d : α) : CARingBuffer α :=
  { capacityFrames := cap, buf := fun _ => d, writePos := 0, readPos := 0 }

/-! ### Ring buffer lemmas -/

/-- Two positions less than one capacity apart have distinct residues. -/
theorem mod_ne_of_lt_of_sub_lt {cap a b : Nat} (hab : a < b)
    (hs : b - a < cap) : a % cap ≠ b % cap := by
  intro h
  have hdvd : cap ∣ b - a := (Nat.modEq_iff_dvd' (Nat.le_of_lt hab)).mp h
  have := Nat.le_of_dvd (by omega) hdvd
  omega

/-- A position written by none of the stores keeps its old sample. -/
theorem storeSamples_apply_ne {α : Type} (cap : Nat) (xs : List α) :
    ∀ (buf : Nat → α) (pos j : Nat),
      (∀ t, t < xs.length → j ≠ (pos + t) &&& (cap - 1)) →
      storeSamples cap buf pos xs j = buf j := by
  induction xs with
  | nil => intro buf pos j _; rfl
  | cons x rest ih =>
    intro buf pos j h
    show storeSamples cap _ (pos + 1) rest j = buf j
    rw [ih _ (pos + 1) j ?_]
    · have h0 : j ≠ pos &&& (cap - 1) := by
        have := h 0 (by simp)
        simpa using this
      simp [h0]
    · intro t ht
      have := h (t + 1) (by simpa using Nat.succ_lt_succ ht)
      simpa [Nat.add_assoc, Nat.add_comm 1 t] using this

/-- Reading back the just-written window returns the written data:
successive masked positions within one capacity are distinct. -/
theorem storeSamples_map_get {α : Type} (k : Nat) (xs : List α) :
    ∀ (buf : Nat → α) (pos : Nat), xs.length ≤ 2 ^ k →
      ((List.range xs.length).map fun t =>
        storeSamples (2 ^ k) buf pos xs ((pos + t) &&& (2 ^ k - 1))) = xs := by
  induction xs with
  | nil => intro buf pos _; rfl
  | cons x rest ih =>
    intro buf pos hlen
    have hcap : 0 < 2 ^ k := Nat.pos_pow_of_pos k (by omega)
    rw [show (x :: rest).length = rest.length + 1 from rfl, List.range_succ_eq_map,
      List.map_cons, List.map_map]
    congr 1
    · show storeSamples (2 ^ k) _ (pos + 1) rest ((pos + 0) &&& (2 ^ k - 1)) = x
      rw [storeSamples_apply_ne (2 ^ k) rest _ (pos + 1) _ ?_]
      · simp
      · intro t ht
        rw [Nat.and_pow_two_sub_one_eq_mod, Nat.and_pow_two_sub_one_eq_mod]
        exact mod_ne_of_lt_of_sub_lt (by omega)
          (by simp only [List.length_cons] at hlen; omega)
    · have hstep : ∀ t : Nat,
          storeSamples (2 ^ k) buf pos (x :: rest) ((pos + Nat.succ t) &&& (2 ^ k - 1)) =
          storeSamples (2 ^ k)
            (fun j => if j = pos &&& (2 ^ k - 1) then x else buf j) (pos + 1) rest
            (((pos + 1) + t) &&& (2 ^ k - 1)) := by
        intro t
        have : pos + Nat.succ t = (pos + 1) + t := by omega
        rw [this]
        rfl
      exact (List.map_congr_left fun t _ => hstep t).trans
        (ih _ (pos + 1) (by simp only [List.length_cons] at hlen; omega))


/-- The stored window after a write: the old window followed by the
written data (explicit-cursor form). -/
theorem unreadWindow_store {α : Type} (k : Nat) (buf : Nat → α) (r w : Nat)
    (xs : List α) (hrw : r ≤ w) (hfit : w - r + xs.length ≤ 2 ^ k) :
    ((List.range (w + xs.length - r)).map fun i =>
        storeSamples (2 ^ k) buf w xs ((r + i) &&& (2 ^ k - 1))) =
      ((List.range (w - r)).map fun i => buf ((r + i) &&& (2 ^ k - 1))) ++ xs := by
  have hsplit : w + xs.length - r = (w - r) + xs.length := by omega
  rw [hsplit, List.range_add, List.map_append, List.map_map]
  congr 1
  · refine List.map_congr_left fun i hi => ?_
    have hi' : i < w - r := List.mem_range.mp hi
    refine storeSamples_apply_ne (2 ^ k) xs buf w _ ?_
    intro t ht
    rw [Nat.and_pow_two_sub_one_eq_mod, Nat.and_pow_two_sub_one_eq_mod]
    exact mod_ne_of_lt_of_sub_lt (by omega) (by omega)
  · refine Eq.trans (List.map_congr_left fun t ht => ?_)
      (storeSamples_map_get k xs buf w (by omega))
    show storeSamples (2 ^ k) buf w xs ((r + ((w - r) + t)) &&& (2 ^ k - 1)) =
      storeSamples (2 ^ k) buf w xs ((w + t) &&& (2 ^ k - 1))
    have : r + ((w - r) + t) = w + t := by omega
    rw [this]

/-- Writing within the free space appends the written data to the
unread window. -/
theorem unreadData_RingWrite {α : Type} (k : Nat) (rb : CARingBuffer α)
    (xs : List α) (hk : rb.capacityFrames = 2 ^ k)
    (hrw : rb.readPos ≤ rb.writePos)
    (hfit : xs.length ≤ FramesAvailableToWrite rb)
    (hcap : rb.writePos - rb.readPos ≤ rb.capacityFrames) :
    unreadData (RingWrite rb xs) = unreadData rb ++ xs := by
  obtain ⟨cap, buf, w, r⟩ := rb
  simp only [FramesAvailableToWrite] at hfit
  simp only at hk hrw hfit hcap
  subst hk
  have hn : min xs.length (2 ^ k - (w - r)) = xs.length := Nat.min_eq_left hfit
  simp only [unreadData, RingWrite, FramesAvailableToRead, FramesAvailableToWrite, hn,
    List.take_length]
  exact unreadWindow_store k buf r w xs hrw (by omega)

/-- A read within the available count returns the oldest `m` unread
frames. -/
theorem RingRead_reads {α : Type} (rb : CARingBuffer α) (m : Nat)
    (hm : m ≤ FramesAvailableToRead rb) :
    (RingRead rb m).2 = (unreadData rb).take m := by
  obtain ⟨cap, buf, w, r⟩ := rb
  simp only [FramesAvailableToRead] at hm
  have hn : min m (w - r) = m := Nat.min_eq_left hm
  simp only [RingRead, unreadData, FramesAvailableToRead, hn, ← List.map_take,
    List.take_range]

/-- A read within the available count drops the oldest `m` frames from
the unread window. -/
theorem unreadData_RingRead {α : Type} (rb : CARingBuffer α) (m : Nat)
    (hm : m ≤ FramesAvailableToRead rb) :
    unreadData (RingRead rb m).1 = (unreadData rb).drop m := by
  obtain ⟨cap, buf, w, r⟩ := rb
  simp only [FramesAvailableToRead] at hm
  have hn : min m (w - r) = m := Nat.min_eq_left hm
  simp only [RingRead, unreadData, FramesAvailableToRead, hn, ← List.map_drop]
  have hsplit : w - r = m + (w - (r + m)) := by omega
  rw [hsplit, List.range_add, List.drop_append_of_le_length (by simp),
    List.drop_eq_nil_of_le (by simp), List.nil_append, List.map_map]
  refine List.map_congr_left fun i _ => ?_
  show buf ((r + m + i) &&& (cap - 1)) = buf ((r + (m + i)) &&& (cap - 1))
  have : r + (m + i) = r + m + i := by omega
  rw [this]

/-- Round-trip invariant for a whole run: the frames returned by the
reads followed by the frames still unread equal the frames that were in
the buffer at the start followed by all written data. -/
theorem runRing_spec {α : Type} (k : Nat) (ops : List (RingOp α)) :
    ∀ rb : CARingBuffer α, rb.capacityFrames = 2 ^ k →
      rb.readPos ≤ rb.writePos →
      rb.writePos - rb.readPos ≤ rb.capacityFrames →
      respectsAvail rb ops = true →
      ringReads rb ops ++ unreadData (runRing rb ops) =
        unreadData rb ++ ringWrites ops := by
  induction ops with
  | nil =>
    intro rb _ _ _ _
    simp [ringReads, runRing, ringWrites]
  | cons op rest ih =>
    intro rb hk hrw hcap hresp
    cases op with
    | write xs =>
      simp only [respectsAvail, Bool.and_eq_true, decide_eq_true_eq] at hresp
      obtain ⟨hfit, hresp'⟩ := hresp
      have hk' : (RingWrite rb xs).capacityFrames = 2 ^ k := hk
      have hrw' : (RingWrite rb xs).readPos ≤ (RingWrite rb xs).writePos := by
        show rb.readPos ≤ rb.writePos + _
        omega
      have hcap' : (RingWrite rb xs).writePos - (RingWrite rb xs).readPos ≤
          (RingWrite rb xs).capacityFrames := by
        show rb.writePos + min xs.length (FramesAvailableToWrite rb) - rb.readPos ≤
          rb.capacityFrames
        have := Nat.min_eq_left hfit
        unfold FramesAvailableToWrite at hfit ⊢
        omega
      have := ih (RingWrite rb xs) hk' hrw' hcap' hresp'
      show ringReads (RingWrite rb xs) rest ++
          unreadData (runRing (RingWrite rb xs) rest) = _
      rw [this, unreadData_RingWrite k rb xs hk hrw hfit (by
        unfold FramesAvailableToWrite at hfit; omega)]
      simp [ringWrites]
    | read m =>
      simp only [respectsAvail, Bool.and_eq_true, decide_eq_true_eq] at hresp
      obtain ⟨hm, hresp'⟩ := hresp
      have hk' : (RingRead rb m).1.capacityFrames = 2 ^ k := hk
      have hrw' : (RingRead rb m).1.readPos ≤ (RingRead rb m).1.writePos := by
        show rb.readPos + min m (FramesAvailableToRead rb) ≤ rb.writePos
        have := Nat.min_eq_left hm
        unfold FramesAvailableToRead at hm ⊢
        omega
      have hcap' : (RingRead rb m).1.writePos - (RingRead rb m).1.readPos ≤
          (RingRead rb m).1.capacityFrames := by
        show rb.writePos - (rb.readPos + min m (FramesAvailableToRead rb)) ≤
          rb.capacityFrames
        unfold FramesAvailableToRead at hm ⊢
        omega
      have := ih (RingRead rb m).1 hk' hrw' hcap' hresp'
      show (RingRead rb m).2 ++ ringReads (RingRead rb m).1 rest ++
          unreadData (runRing (RingRead rb m).1 rest) = _
      rw [List.append_assoc, this, unreadData_RingRead rb m hm,
        RingRead_reads rb m hm, ← List.append_assoc, List.take_append_drop]
      simp [ringWrites]

/-- C6 — Ring buffer round-trip: starting from an empty power-of-two
ring, for every interleaved sequence of `Write(n)` and `Read(m)` calls
in which every write count is within the frames available to write and
every read count within the frames available to read, the concatenation
of all frames returned by the reads followed by the frames still unread
equals the concatenation of all frames passed to the writes — the read
stream reproduces the written stream in order, with no loss and no
duplication — and when the final buffer is empty the two concatenations
are equal. -/
theorem ringBuffer_roundtrip (α : Type) (k : Nat) (d : α)
    (ops : List (RingOp α))
    (hresp : respectsAvail (emptyRing α (2 ^ k) d) ops = true) :
    ringReads (emptyRing α (2 ^ k) d) ops ++
        unreadData (runRing (emptyRing α (2 ^ k) d) ops) = ringWrites ops ∧
      (unreadData (runRing (emptyRing α (2 ^ k) d) ops) = [] →
        ringReads (emptyRing α (2 ^ k) d) ops = ringWrites ops) := by
  have h0 : unreadData (emptyRing α (2 ^ k) d) = [] := rfl
  have := runRing_spec k ops (emptyRing α (2 ^ k) d) rfl (Nat.le_refl 0)
    (by simp [emptyRing]) hresp
  rw [h0, List.nil_append] at this
  refine ⟨this, fun hempty => ?_⟩
  rw [hempty, List.append_nil] at this
  exact this

/-- Witness for C6: a concrete interleaving on a capacity-4 ring with
two wrapping writes and reads; every transferred frame comes back in
order. -/
theorem ringBuffer_roundtrip_witness :
    respectsAvail (emptyRing Nat (2 ^ 2) 0)
        [.write [1, 2, 3], .read 2, .write [4, 5, 6], .read 4] = true ∧
      ringReads (emptyRing Nat (2 ^ 2) 0)
          [.write [1, 2, 3], .read 2, .write [4, 5, 6], .read 4] ++
        unreadData (runRing (emptyRing Nat (2 ^ 2) 0)
          [.write [1, 2, 3], .read 2, .write [4, 5, 6], .read 4]) =
        ringWrites [.write [1, 2, 3], .read 2, .write [4, 5, 6], .read 4] :=
  ⟨by decide, (ringBuffer_roundtrip Nat 2 0
    [.write [1, 2, 3], .read 2, .write [4, 5, 6], .read 4] (by decide)).1⟩

/-! ## The gapless engine state machine (spec §3, §4.3, §4.4, §4.8)

Modelled from the spec: `AudioPlayer.cpp`, `DecoderStateData` and the
thread bodies are absent (the header declares `mActiveDecoders`,
`mFramesDecoded`, `mFramesRendered`, the decoder/collector thread entry
points and `kActiveDecoderArraySize`).  The decode thread, render
callback, collector and controller are modelled as a step relation on an
engine state: queued decoders carry an identifier and their
`totalFrames`; active decoder states carry the counters and lifecycle
flags of §3.  The render callback's counter pass (§4.4 step 6) consumes
frames in `timeStamp` order, which the ordering of the `active` list
represents; a decoder is touched only when its frame interval intersects
the consumed span, i.e. when it actually receives frames. -/

/-- `kActiveDecoderArraySize`, from src/Player/AudioPlayer.h line 50. -/
def kActiveDecoderArraySize : Nat := 8

/-- One `DecoderStateData` record (spec §3): identifier, source length,
the two monotone counters and the lifecycle flags relevant to the
claims (`DecodingStarted` is implied by presence in the active array and
`CancelDecoding` only occurs inside `Stop`, which clears the array). -/
structure DecoderStateData where
  did : Nat
  totalFrames : Nat
  framesDecoded : Nat
  framesRendered : Nat
  decodingFinished : Bool
  renderingStarted : Bool
  renderingFinished : Bool
  deriving Repr, DecidableEq

/-- A freshly activated decoder state (spec §4.3 step 3). -/
def freshDecoder (id n : Nat) : DecoderStateData :=
  { did := id, totalFrames := n, framesDecoded := 0, framesRendered := 0,
    decodingFinished := false, renderingStarted := false,
    renderingFinished := false }

/-- The engine state: the FIFO `DecoderQueue` of (id, totalFrames)
pairs, the `mActiveDecoders` slots in timestamp order, the ring
capacity, the playback flags and the next fresh decoder id. -/
structure EngineState where
  queue : List (Nat × Nat)
  active : List DecoderStateData
  capacity : Nat
  isPlaying : Bool
  deviceRunning : Bool
  nextId : Nat
  deriving Repr, DecidableEq

/-- Frames sitting in the ring buffer: decoded but not yet rendered,
summed across the active decoders (spec §4.1/§4.3 accounting). -/
def unreadTotal (s : EngineState) : Nat :=
  (s.active.map fun d => d.framesDecoded - d.framesRendered).sum

/-- The render callback's update of one decoder that receives `m > 0`
frames this pass (spec §4.4 steps 6-7): add the intersecting count to
`framesRendered`, mark `RenderingStarted` (its `timeStamp` has been
crossed), and set `RenderingFinished` when the counter reaches
`totalFrames`. -/
def renderUpd (d : DecoderStateData) (m : Nat) : DecoderStateData :=
  { d with
    framesRendered := d.framesRendered + m
    renderingStarted := true
    renderingFinished :=
      d.renderingFinished || decide (d.framesRendered + m = d.totalFrames) }

/-- Distribute `k` consumed frames over the active decoders in
timestamp order (spec §4.4 step 6): each decoder receives the part of
the consumed span intersecting its own unread frames; a decoder whose
interval does not intersect the span is not touched. -/
def distribute : Nat → List DecoderStateData → List DecoderStateData
  | _, [] => []
  | k, d :: ds =>
    let m := min k (d.framesDecoded - d.framesRendered)
    (if m = 0 then d else renderUpd d m) :: distribute (k - m) ds

/-- The operations of the engine: controller calls (`enqueue`, `play`,
`pause`, `stop`, `seekTo`), decode-thread steps (`activate`,
`decodeChunk`, `finishDecoding`, `abortDecoding`), the render callback
(`renderPass`) and the collector (`collect`). -/
inductive EngineAct where
  | enqueue (n : Nat)
  | activate
  | decodeChunk (k : Nat)
  | finishDecoding
  | abortDecoding
  | seekTo (f : Nat)
  | renderPass (k : Nat)
  | collect
  | play
  | pause
  | stop
  deriving Repr, DecidableEq

/-- Whether an operation is a seek. -/
def EngineAct.isSeek : EngineAct → Bool
  | .seekTo _ => true
  | _ => false

/-- The engine's step relation, modelled from the spec:
* `enqueue` (§4.5) appends to the FIFO queue with a fresh id;
* `activate` (§4.3 step 3) claims an empty `mActiveDecoders` slot for
  the next queued decoder once no active decoder is still decoding —
  the array has `kActiveDecoderArraySize` slots, so a slot must be free;
* `decodeChunk` (§4.3 step 2) pulls `k` source frames of the current
  (last) decoder into ring space and advances `framesDecoded`;
* `finishDecoding` (§4.3) sets `DecodingFinished` at source EOF;
* `abortDecoding` (§4.3 failure policy) flips `DecodingFinished` for the
  current slot on a per-decoder fatal error, without producing more
  frames (here `framesDecoded` may be anywhere below `totalFrames`);
  playback proceeds with the next queued decoder;
* `seekTo` (§4.3 / §4.2) honours a seek request on the current decoder:
  the ring is reset and the decode counters are reset to the seek
  target, which requires the earlier decoders' buffered frames to have
  been drained; the target must be a valid frame index;
* `renderPass` (§4.4) consumes `k` buffered frames in timestamp order
  and updates counters and flags;
* `collect` (§4.6) reaps every slot with both finished flags set;
* `play` / `pause` (§4.5) start/stop the device I/O proc;
* `stop` (§4.5) cancels and clears all active decoders. -/
inductive Step : EngineState → EngineAct → EngineState → Prop
  | enqueue (s : EngineState) (n : Nat) :
      Step s (.enqueue n)
        { s with queue := s.queue ++ [(s.nextId, n)], nextId := s.nextId + 1 }
  | activate (s : EngineState) (id n : Nat) (rest : List (Nat × Nat))
      (hq : s.queue = (id, n) :: rest)
      (hfin : ∀ d ∈ s.active, d.decodingFinished = true)
      (hlen : s.active.length < kActiveDecoderArraySize) :
      Step s .activate
        { s with queue := rest, active := s.active ++ [freshDecoder id n] }
  | decodeChunk (s : EngineState) (front : List DecoderStateData)
      (d : DecoderStateData) (k : Nat)
      (hsplit : s.active = front ++ [d])
      (hnf : d.decodingFinished = false)
      (hk : d.framesDecoded + k ≤ d.totalFrames)
      (hcap : unreadTotal s + k ≤ s.capacity) :
      Step s (.decodeChunk k)
        { s with active := front ++ [{ d with framesDecoded := d.framesDecoded + k }] }
  | finishDecoding (s : EngineState) (front : List DecoderStateData)
      (d : DecoderStateData)
      (hsplit : s.active = front ++ [d])
      (hnf : d.decodingFinished = false)
      (heof : d.framesDecoded = d.totalFrames) :
      Step s .finishDecoding
        { s with active := front ++ [{ d with decodingFinished := true }] }
  | abortDecoding (s : EngineState) (front : List DecoderStateData)
      (d : DecoderStateData)
      (hsplit : s.active = front ++ [d])
      (hnf : d.decodingFinished = false) :
      Step s .abortDecoding
        { s with active := front ++ [{ d with decodingFinished := true }] }
  | seekTo (s : EngineState) (front : List DecoderStateData)
      (d : DecoderStateData) (f : Nat)
      (hsplit : s.active = front ++ [d])
      (hnf : d.decodingFinished = false)
      (hf : f < d.totalFrames)
      (hdrained : ∀ d' ∈ front, d'.framesRendered = d'.framesDecoded) :
      Step s (.seekTo f)
        { s with active := front ++ [{ d with framesDecoded := f, framesRendered := f }] }
  | renderPass (s : EngineState) (k : Nat)
      (hk : k ≤ unreadTotal s)
      (hrun : s.deviceRunning = true) :
      Step s (.renderPass k) { s with active := distribute k s.active }
  | collect (s : EngineState) :
      Step s .collect
        { s with active :=
            s.active.filter fun d => !(d.decodingFinished && d.renderingFinished) }
  | play (s : EngineState) :
      Step s .play { s with isPlaying := true, deviceRunning := true }
  | pause (s : EngineState) :
      Step s .pause { s with isPlaying := false, deviceRunning := false }
  | stop (s : EngineState) :
      Step s .stop { s with active := [], isPlaying := false, deviceRunning := false }

/-- The engine as created: empty queue, empty active array, stopped. -/
def initEngine (cap : Nat) : EngineState :=
  { queue := [], active := [], capacity := cap, isPlaying := false,
    deviceRunning := false, nextId := 0 }

/-- The reachable states of an engine with ring capacity `cap`. -/
inductive Reachable (cap : Nat) : EngineState → Prop
  | init : Reachable cap (initEngine cap)
  | step {s : EngineState} {a : EngineAct} {s' : EngineState} :
      Reachable cap s → Step s a s' → Reachable cap s'

/-! ### Engine invariants -/

/-- Counter sandwich for one decoder (spec §3 invariants). -/
def wfCounts (d : DecoderStateData) : Prop :=
  d.framesRendered ≤ d.framesDecoded ∧ d.framesDecoded ≤ d.totalFrames

/-- Gapless flag ordering between an earlier and a later decoder: the
later one starts rendering only once the earlier — provided it had any
frames at all and its decoding ran to completion rather than being
aborted by a fatal decode error — has finished rendering. -/
def gaplessOrder (a b : DecoderStateData) : Prop :=
  b.renderingStarted = true → a.framesDecoded = a.totalFrames →
    0 < a.totalFrames → a.renderingFinished = true

/-- A later decoder starts rendering only once every earlier decoder's
buffered frames are fully consumed (every frame that was decoded has
been rendered). -/
def earlierDrained (a b : DecoderStateData) : Prop :=
  b.renderingStarted = true → a.framesRendered = a.framesDecoded

/-- The inductive invariant of the engine. -/
def EngineInv (s : EngineState) : Prop :=
  (∀ d ∈ s.active, wfCounts d) ∧
  s.active.Pairwise (fun a _ => a.decodingFinished = true) ∧
  s.active.Pairwise earlierDrained ∧
  (∀ d ∈ s.active, d.framesRendered = d.totalFrames → 0 < d.totalFrames →
    d.renderingFinished = true) ∧
  s.active.Pairwise gaplessOrder ∧
  s.active.length ≤ kActiveDecoderArraySize ∧
  (s.active.map DecoderStateData.did ++ s.queue.map Prod.fst).Pairwise (· < ·) ∧
  (∀ i ∈ s.active.map DecoderStateData.did ++ s.queue.map Prod.fst, i < s.nextId)

/-! ### Lemmas about `distribute` -/

/-- A pass that consumes nothing touches nothing. -/
theorem distribute_zero (l : List DecoderStateData) : distribute 0 l = l := by
  induction l with
  | nil => rfl
  | cons d ds ih => simp [distribute, ih]

/-- A render pass does not change the number of active decoders. -/
theorem distribute_length (k : Nat) (l : List DecoderStateData) :
    (distribute k l).length = l.length := by
  induction l generalizing k with
  | nil => rfl
  | cons d ds ih => simp [distribute, ih]

/-- A render pass does not change the decoder ids, in order. -/
theorem distribute_map_did (k : Nat) (l : List DecoderStateData) :
    (distribute k l).map DecoderStateData.did = l.map DecoderStateData.did := by
  induction l generalizing k with
  | nil => rfl
  | cons d ds ih =>
    simp only [distribute, List.map_cons, ih]
    congr 1
    by_cases hm : min k (d.framesDecoded - d.framesRendered) = 0 <;>
      simp [hm, renderUpd]

/-- Every decoder after a render pass comes from a decoder of the input
with the same id, length, decode counter and decoding flag; its render
counter does not decrease and stays below the decode counter if it was,
and set rendering flags stay set. -/
theorem distribute_mem (k : Nat) (l : List DecoderStateData) :
    ∀ d' ∈ distribute k l, ∃ d ∈ l, d.did = d'.did ∧
      d.totalFrames = d'.totalFrames ∧
      d.framesDecoded = d'.framesDecoded ∧
      d.decodingFinished = d'.decodingFinished ∧
      d.framesRendered ≤ d'.framesRendered ∧
      d'.framesRendered ≤ max d.framesRendered d.framesDecoded ∧
      (d.renderingStarted = true → d'.renderingStarted = true) ∧
      (d.renderingFinished = true → d'.renderingFinished = true) := by
  induction l generalizing k with
  | nil => intro d' h; simp [distribute] at h
  | cons d ds ih =>
    intro d' h
    simp only [distribute, List.mem_cons] at h
    rcases h with h | h
    · refine ⟨d, List.mem_cons_self d ds, ?_⟩
      by_cases hm : min k (d.framesDecoded - d.framesRendered) = 0
      · rw [hm] at h
        simp only [if_pos rfl] at h
        subst h
        refine ⟨rfl, rfl, rfl, rfl, Nat.le_refl _, Nat.le_max_left _ _, id, id⟩
      · rw [if_neg hm] at h
        subst h
        have hle : min k (d.framesDecoded - d.framesRendered) ≤
            d.framesDecoded - d.framesRendered := Nat.min_le_right _ _
        refine ⟨rfl, rfl, rfl, rfl, ?_, ?_, ?_, ?_⟩
        · exact Nat.le_add_right _ _
        · show d.framesRendered + _ ≤ _
          omega
        · intro _; rfl
        · intro hf; simp [renderUpd, hf]
    · obtain ⟨d₀, hd₀, hrest⟩ := ih _ d' h
      exact ⟨d₀, List.mem_cons_of_mem d hd₀, hrest⟩

/-- Every decoder after a render pass is either untouched or updated by
`renderUpd` with the positive frame count it received. -/
theorem distribute_mem_cases (k : Nat) (l : List DecoderStateData) :
    ∀ d' ∈ distribute k l, ∃ d ∈ l, d' = d ∨
      ∃ m, 0 < m ∧ m ≤ d.framesDecoded - d.framesRendered ∧ d' = renderUpd d m := by
  induction l generalizing k with
  | nil => intro d' h; simp [distribute] at h
  | cons d ds ih =>
    intro d' h
    simp only [distribute, List.mem_cons] at h
    rcases h with h | h
    · refine ⟨d, List.mem_cons_self d ds, ?_⟩
      by_cases hm : min k (d.framesDecoded - d.framesRendered) = 0
      · rw [hm] at h; simp only [if_pos rfl] at h; exact Or.inl h
      · rw [if_neg hm] at h
        exact Or.inr ⟨_, Nat.pos_of_ne_zero hm, Nat.min_le_right _ _, h⟩
    · obtain ⟨d₀, hd₀, hc⟩ := ih _ d' h
      exact ⟨d₀, List.mem_cons_of_mem d hd₀, hc⟩

/-- The render callback's counter pass preserves the engine invariant
restricted to the active list. -/
theorem distribute_inv (l : List DecoderStateData) :
    ∀ k : Nat,
      (∀ d ∈ l, wfCounts d) →
      l.Pairwise (fun a _ => a.decodingFinished = true) →
      l.Pairwise earlierDrained →
      (∀ d ∈ l, d.framesRendered = d.totalFrames → 0 < d.totalFrames →
        d.renderingFinished = true) →
      l.Pairwise gaplessOrder →
      (∀ d' ∈ distribute k l,
        d'.framesRendered = d'.totalFrames → 0 < d'.totalFrames →
          d'.renderingFinished = true) ∧
      (distribute k l).Pairwise (fun a _ => a.decodingFinished = true) ∧
      (distribute k l).Pairwise earlierDrained ∧
      (distribute k l).Pairwise gaplessOrder := by
  induction l with
  | nil =>
    intro k _ _ _ _ _
    simp [distribute]
  | cons d ds ih =>
    intro k hwf hfin hdr hr5 hgo
    obtain ⟨hfin_hd, hfin_tl⟩ := List.pairwise_cons.mp hfin
    obtain ⟨hdr_hd, hdr_tl⟩ := List.pairwise_cons.mp hdr
    obtain ⟨hgo_hd, hgo_tl⟩ := List.pairwise_cons.mp hgo
    have hwf_d := hwf d (List.mem_cons_self d ds)
    have hwf_tl : ∀ x ∈ ds, wfCounts x := fun x hx => hwf x (List.mem_cons_of_mem d hx)
    have hr5_tl : ∀ x ∈ ds, x.framesRendered = x.totalFrames → 0 < x.totalFrames →
        x.renderingFinished = true :=
      fun x hx => hr5 x (List.mem_cons_of_mem d hx)
    set m := min k (d.framesDecoded - d.framesRendered) with hm_def
    obtain ⟨ih5, ih2, ih4, ih6⟩ := ih (k - m) hwf_tl hfin_tl hdr_tl hr5_tl hgo_tl
    -- facts about the new head
    have hhd_fields :
        (if m = 0 then d else renderUpd d m).totalFrames = d.totalFrames ∧
        (if m = 0 then d else renderUpd d m).framesDecoded = d.framesDecoded ∧
        (if m = 0 then d else renderUpd d m).decodingFinished = d.decodingFinished ∧
        (if m = 0 then d else renderUpd d m).framesRendered = d.framesRendered + m := by
      by_cases hm : m = 0 <;> simp [hm, renderUpd]
    obtain ⟨hhdT, hhdD, hhdF, hhdR⟩ := hhd_fields
    -- if there is any later decoder, the head has finished decoding
    have hds_fin : ds ≠ [] → d.decodingFinished = true := by
      intro hne
      obtain ⟨b, hb⟩ := List.exists_mem_of_ne_nil ds hne
      exact hfin_hd b hb
    -- if the pass continues past the head, the head was fully consumed
    have hcont : k - m ≠ 0 → d.framesRendered + m = d.framesDecoded := by
      intro hk0
      have : m = d.framesDecoded - d.framesRendered := by omega
      obtain ⟨h1, _⟩ := hwf_d
      omega
    -- membership in the distributed tail implies the tail is nonempty
    have htl_ne : ∀ b', b' ∈ distribute (k - m) ds → ds ≠ [] := by
      intro b' hb' hnil
      subst hnil
      simp [distribute] at hb'
    have hunfold : distribute k (d :: ds) =
        (if m = 0 then d else renderUpd d m) :: distribute (k - m) ds := rfl
    refine ⟨?_, ?_, ?_, ?_⟩
    · -- rendered-at-total forces the finished flag
      intro d' hd' hrt hpos
      rw [hunfold, List.mem_cons] at hd'
      rcases hd' with hd' | hd'
      · by_cases hm0 : m = 0
        · rw [hm0] at hd'
          simp only [if_pos rfl] at hd'
          subst hd'
          exact hr5 d' (List.mem_cons_self d' ds) hrt hpos
        · rw [if_neg hm0] at hd'
          subst hd'
          simp only [renderUpd] at hrt hpos ⊢
          simp [hrt]
      · exact ih5 d' hd' hrt hpos
    · -- all-but-last decoding finished
      rw [hunfold]
      refine List.pairwise_cons.mpr ⟨?_, ih2⟩
      intro b' hb'
      rw [hhdF]
      exact hds_fin (htl_ne b' hb')
    · -- later started forces the earlier buffered frames fully consumed
      rw [hunfold]
      refine List.pairwise_cons.mpr ⟨?_, ih4⟩
      intro b' hb' hbst
      show (if m = 0 then d else renderUpd d m).framesRendered =
        (if m = 0 then d else renderUpd d m).framesDecoded
      rw [hhdR, hhdD]
      by_cases hk0 : k - m = 0
      · -- the pass ended at or before the head: the later decoder was
        -- already started, so the head's buffer was already drained
        rw [hk0, distribute_zero] at hb'
        have hren : d.framesRendered = d.framesDecoded := hdr_hd b' hb' hbst
        omega
      · exact hcont hk0
    · -- gapless flag ordering
      rw [hunfold]
      refine List.pairwise_cons.mpr ⟨?_, ih6⟩
      intro b' hb' hbst hdec hpos
      rw [hhdD, hhdT] at hdec
      rw [hhdT] at hpos
      show (if m = 0 then d else renderUpd d m).renderingFinished = true
      by_cases hk0 : k - m = 0
      · rw [hk0, distribute_zero] at hb'
        have hfinfl : d.renderingFinished = true := hgo_hd b' hb' hbst hdec hpos
        by_cases hm0 : m = 0
        · simp [hm0, hfinfl]
        · simp [hm0, renderUpd, hfinfl]
      · have hfull := hcont hk0
        by_cases hm0 : m = 0
        · have hren : d.framesRendered = d.totalFrames := by omega
          have := hr5 d (List.mem_cons_self d ds) hren hpos
          simp [hm0, this]
        · have : d.framesRendered + m = d.totalFrames := by omega
          simp [hm0, renderUpd, this]

/-- Pairwise over a list with one appended element. -/
theorem pairwise_append_singleton {α : Type} {R : α → α → Prop}
    {l : List α} {x : α} :
    (l ++ [x]).Pairwise R ↔ l.Pairwise R ∧ ∀ a ∈ l, R a x := by
  rw [List.pairwise_append]
  simp

/-- Every step of the engine preserves the invariant. -/
theorem engineInv_preserved {s : EngineState} {act : EngineAct}
    {s' : EngineState} (hinv : EngineInv s) (hstep : Step s act s') :
    EngineInv s' := by
  obtain ⟨h1, h2, h3, h4, h5, h6, h7, h8⟩ := hinv
  cases hstep with
  | enqueue n =>
    refine ⟨h1, h2, h3, h4, h5, h6, ?_, ?_⟩
    · show (s.active.map DecoderStateData.did ++
        (s.queue ++ [(s.nextId, n)]).map Prod.fst).Pairwise (· < ·)
      rw [List.map_append, ← List.append_assoc]
      exact pairwise_append_singleton.mpr ⟨h7, fun i hi => h8 i hi⟩
    · intro i hi
      show i < s.nextId + 1
      rw [List.map_append, ← List.append_assoc] at hi
      rcases List.mem_append.mp hi with hi | hi
      · exact Nat.lt_succ_of_lt (h8 i hi)
      · simp at hi
        omega
  | activate id n rest hq hfin hlen =>
    rw [hq] at h7 h8
    refine ⟨?_, ?_, ?_, ?_, ?_, ?_, ?_, ?_⟩
    · intro d hd
      rcases List.mem_append.mp hd with hd | hd
      · exact h1 d hd
      · simp only [List.mem_singleton] at hd
        subst hd
        exact ⟨Nat.le_refl 0, Nat.zero_le n⟩
    · exact pairwise_append_singleton.mpr ⟨h2, fun a ha => hfin a ha⟩
    · refine pairwise_append_singleton.mpr ⟨h3, fun a ha => ?_⟩
      intro hst
      simp [freshDecoder] at hst
    · intro d hd
      rcases List.mem_append.mp hd with hd | hd
      · exact h4 d hd
      · simp only [List.mem_singleton] at hd
        subst hd
        intro hz hpos
        simp only [freshDecoder] at hz hpos
        omega
    · refine pairwise_append_singleton.mpr ⟨h5, fun a ha => ?_⟩
      intro hst
      simp [freshDecoder] at hst
    · show (s.active ++ [freshDecoder id n]).length ≤ kActiveDecoderArraySize
      simp only [List.length_append, List.length_singleton]
      omega
    · show ((s.active ++ [freshDecoder id n]).map DecoderStateData.did ++
        rest.map Prod.fst).Pairwise (· < ·)
      rw [List.map_append, List.append_assoc]
      show (_ ++ ([(freshDecoder id n).did] ++ _)).Pairwise _
      rw [List.singleton_append]
      exact h7
    · intro i hi
      show i < s.nextId
      apply h8
      simp only [List.map_append, List.map_cons, List.map_nil, List.append_assoc,
        List.singleton_append, freshDecoder] at hi ⊢
      exact hi
  | decodeChunk front d k hsplit hnf hk hcap =>
    rw [hsplit] at h1 h2 h3 h4 h5 h6 h7 h8
    have hdw := h1 d (by simp)
    refine ⟨?_, ?_, ?_, ?_, ?_, ?_, ?_, ?_⟩
    · intro x hx
      rcases List.mem_append.mp hx with hx | hx
      · exact h1 x (List.mem_append_left _ hx)
      · simp only [List.mem_singleton] at hx
        subst hx
        obtain ⟨ha, hb⟩ := hdw
        exact ⟨Nat.le_add_right_of_le ha, hk⟩
    · refine pairwise_append_singleton.mpr
        ⟨(pairwise_append_singleton.mp h2).1, fun a ha => ?_⟩
      exact (pairwise_append_singleton.mp h2).2 a ha
    · refine pairwise_append_singleton.mpr
        ⟨(pairwise_append_singleton.mp h3).1, fun a ha => ?_⟩
      intro hst
      exact (pairwise_append_singleton.mp h3).2 a ha hst
    · intro x hx
      rcases List.mem_append.mp hx with hx | hx
      · exact h4 x (List.mem_append_left _ hx)
      · simp only [List.mem_singleton] at hx
        subst hx
        exact h4 d (by simp)
    · refine pairwise_append_singleton.mpr
        ⟨(pairwise_append_singleton.mp h5).1, fun a ha => ?_⟩
      intro hst
      exact (pairwise_append_singleton.mp h5).2 a ha hst
    · show (front ++ [_]).length ≤ kActiveDecoderArraySize
      simpa using h6
    · show ((front ++ [_]).map DecoderStateData.did ++ _).Pairwise (· < ·)
      rw [List.map_append] at h7 ⊢
      exact h7
    · intro i hi
      apply h8
      rw [List.map_append] at hi ⊢
      exact hi
  | finishDecoding front d hsplit hnf _heof =>
    rw [hsplit] at h1 h2 h3 h4 h5 h6 h7 h8
    refine ⟨?_, ?_, ?_, ?_, ?_, ?_, ?_, ?_⟩
    · intro x hx
      rcases List.mem_append.mp hx with hx | hx
      · exact h1 x (List.mem_append_left _ hx)
      · simp only [List.mem_singleton] at hx
        subst hx
        exact h1 d (by simp)
    · refine pairwise_append_singleton.mpr
        ⟨(pairwise_append_singleton.mp h2).1, fun a ha => ?_⟩
      exact (pairwise_append_singleton.mp h2).2 a ha
    · refine pairwise_append_singleton.mpr
        ⟨(pairwise_append_singleton.mp h3).1, fun a ha => ?_⟩
      intro hst
      exact (pairwise_append_singleton.mp h3).2 a ha hst
    · intro x hx
      rcases List.mem_append.mp hx with hx | hx
      · exact h4 x (List.mem_append_left _ hx)
      · simp only [List.mem_singleton] at hx
        subst hx
        exact h4 d (by simp)
    · refine pairwise_append_singleton.mpr
        ⟨(pairwise_append_singleton.mp h5).1, fun a ha => ?_⟩
      intro hst
      exact (pairwise_append_singleton.mp h5).2 a ha hst
    · show (front ++ [_]).length ≤ kActiveDecoderArraySize
      simpa using h6
    · show ((front ++ [_]).map DecoderStateData.did ++ _).Pairwise (· < ·)
      rw [List.map_append] at h7 ⊢
      exact h7
    · intro i hi
      apply h8
      rw [List.map_append] at hi ⊢
      exact hi
  | abortDecoding front d hsplit hnf =>
    rw [hsplit] at h1 h2 h3 h4 h5 h6 h7 h8
    refine ⟨?_, ?_, ?_, ?_, ?_, ?_, ?_, ?_⟩
    · intro x hx
      rcases List.mem_append.mp hx with hx | hx
      · exact h1 x (List.mem_append_left _ hx)
      · simp only [List.mem_singleton] at hx
        subst hx
        exact h1 d (by simp)
    · refine pairwise_append_singleton.mpr
        ⟨(pairwise_append_singleton.mp h2).1, fun a ha => ?_⟩
      exact (pairwise_append_singleton.mp h2).2 a ha
    · refine pairwise_append_singleton.mpr
        ⟨(pairwise_append_singleton.mp h3).1, fun a ha => ?_⟩
      intro hst
      exact (pairwise_append_singleton.mp h3).2 a ha hst
    · intro x hx
      rcases List.mem_append.mp hx with hx | hx
      · exact h4 x (List.mem_append_left _ hx)
      · simp only [List.mem_singleton] at hx
        subst hx
        exact h4 d (by simp)
    · refine pairwise_append_singleton.mpr
        ⟨(pairwise_append_singleton.mp h5).1, fun a ha => ?_⟩
      intro hst
      exact (pairwise_append_singleton.mp h5).2 a ha hst
    · show (front ++ [_]).length ≤ kActiveDecoderArraySize
      simpa using h6
    · show ((front ++ [_]).map DecoderStateData.did ++ _).Pairwise (· < ·)
      rw [List.map_append] at h7 ⊢
      exact h7
    · intro i hi
      apply h8
      rw [List.map_append] at hi ⊢
      exact hi
  | seekTo front d f hsplit hnf hf hdrained =>
    rw [hsplit] at h1 h2 h3 h4 h5 h6 h7 h8
    refine ⟨?_, ?_, ?_, ?_, ?_, ?_, ?_, ?_⟩
    · intro x hx
      rcases List.mem_append.mp hx with hx | hx
      · exact h1 x (List.mem_append_left _ hx)
      · simp only [List.mem_singleton] at hx
        subst hx
        exact ⟨Nat.le_refl f, Nat.le_of_lt hf⟩
    · refine pairwise_append_singleton.mpr
        ⟨(pairwise_append_singleton.mp h2).1, fun a ha => ?_⟩
      exact (pairwise_append_singleton.mp h2).2 a ha
    · refine pairwise_append_singleton.mpr
        ⟨(pairwise_append_singleton.mp h3).1, fun a ha => ?_⟩
      intro hst
      exact (pairwise_append_singleton.mp h3).2 a ha hst
    · intro x hx
      rcases List.mem_append.mp hx with hx | hx
      · exact h4 x (List.mem_append_left _ hx)
      · simp only [List.mem_singleton] at hx
        subst hx
        intro hz hpos
        simp only at hz hpos
        omega
    · refine pairwise_append_singleton.mpr
        ⟨(pairwise_append_singleton.mp h5).1, fun a ha => ?_⟩
      intro hst
      exact (pairwise_append_singleton.mp h5).2 a ha hst
    · show (front ++ [_]).length ≤ kActiveDecoderArraySize
      simpa using h6
    · show ((front ++ [_]).map DecoderStateData.did ++ _).Pairwise (· < ·)
      rw [List.map_append] at h7 ⊢
      exact h7
    · intro i hi
      apply h8
      rw [List.map_append] at hi ⊢
      exact hi
  | renderPass k hk hrun =>
    obtain ⟨i5, i2, i4, i6⟩ := distribute_inv s.active k h1 h2 h3 h4 h5
    refine ⟨?_, i2, i4, i5, i6, ?_, ?_, ?_⟩
    · intro x hx
      obtain ⟨d₀, hd₀, _, hT, hD, _, _, hRmax, _, _⟩ := distribute_mem k s.active x hx
      obtain ⟨ha, hb⟩ := h1 d₀ hd₀
      constructor
      · rw [← hD]; omega
      · rw [← hD, ← hT]; exact hb
    · show (distribute k s.active).length ≤ kActiveDecoderArraySize
      rw [distribute_length]
      exact h6
    · show ((distribute k s.active).map DecoderStateData.did ++ _).Pairwise (· < ·)
      rw [distribute_map_did]
      exact h7
    · intro i hi
      apply h8
      rw [distribute_map_did] at hi
      exact hi
  | collect =>
    have hsub : (s.active.filter fun d =>
        !(d.decodingFinished && d.renderingFinished)).Sublist s.active :=
      List.filter_sublist s.active
    have hmem : ∀ x, x ∈ (s.active.filter fun d =>
        !(d.decodingFinished && d.renderingFinished)) → x ∈ s.active :=
      fun x hx => hsub.mem hx
    have hmapsub : ((s.active.filter fun d =>
          !(d.decodingFinished && d.renderingFinished)).map DecoderStateData.did ++
        s.queue.map Prod.fst).Sublist
        (s.active.map DecoderStateData.did ++ s.queue.map Prod.fst) :=
      (hsub.map DecoderStateData.did).append_right _
    refine ⟨fun x hx => h1 x (hmem x hx), h2.sublist hsub, h3.sublist hsub,
      fun x hx => h4 x (hmem x hx), h5.sublist hsub, ?_, ?_, ?_⟩
    · exact Nat.le_trans (s.active.length_filter_le _) h6
    · exact h7.sublist hmapsub
    · intro i hi
      exact h8 i (hmapsub.mem hi)
  | play => exact ⟨h1, h2, h3, h4, h5, h6, h7, h8⟩
  | pause => exact ⟨h1, h2, h3, h4, h5, h6, h7, h8⟩
  | stop =>
    refine ⟨?_, ?_, ?_, ?_, ?_, ?_, ?_, ?_⟩
    · intro x hx; cases hx
    · exact List.Pairwise.nil
    · exact List.Pairwise.nil
    · intro x hx; cases hx
    · exact List.Pairwise.nil
    · show (0 : Nat) ≤ kActiveDecoderArraySize
      simp [kActiveDecoderArraySize]
    · show (([] : List DecoderStateData).map DecoderStateData.did ++
        s.queue.map Prod.fst).Pairwise (· < ·)
      rw [List.map_nil, List.nil_append]
      exact (List.pairwise_append.mp h7).2.1
    · intro i hi
      rw [List.map_nil, List.nil_append] at hi
      exact h8 i (List.mem_append_right _ hi)

/-- The freshly created engine satisfies the invariant. -/
theorem engineInv_init (cap : Nat) : EngineInv (initEngine cap) := by
  refine ⟨?_, ?_, ?_, ?_, ?_, ?_, ?_, ?_⟩ <;>
    simp [initEngine, EngineInv, kActiveDecoderArraySize]

/-- Every reachable engine state satisfies the invariant. -/
theorem reachable_engineInv {cap : Nat} {s : EngineState}
    (h : Reachable cap s) : EngineInv s := by
  induction h with
  | init => exact engineInv_init cap
  | step _ hstep ih => exact engineInv_preserved ih hstep

/-! ### Concrete executions

A fully played-out two-decoder run (decoder 0 with two frames, decoder 1
with one frame) and three special runs used to exhibit behaviour of a
zero-frame decoder, of the seek operation and of a decoder aborted by a
fatal decode error. -/

/-- Decoder 0 of the ordinary run after everything is rendered. -/
def egA : DecoderStateData :=
  { did := 0, totalFrames := 2, framesDecoded := 2, framesRendered := 2,
    decodingFinished := true, renderingStarted := true, renderingFinished := true }

/-- Decoder 1 of the ordinary run after everything is rendered. -/
def egB : DecoderStateData :=
  { did := 1, totalFrames := 1, framesDecoded := 1, framesRendered := 1,
    decodingFinished := false, renderingStarted := true, renderingFinished := true }

/-- The engine after the ordinary two-decoder run. -/
def egState : EngineState :=
  { queue := [], active := [egA, egB], capacity := 8, isPlaying := true,
    deviceRunning := true, nextId := 2 }

/-- The ordinary two-decoder run is an execution of the engine. -/
theorem egState_reachable : Reachable 8 egState := by
  have h0 : Reachable 8 (initEngine 8) := Reachable.init
  have h1 := Reachable.step h0 (Step.enqueue (initEngine 8) 2)
  have h2 := Reachable.step h1 (Step.enqueue _ 1)
  have h3 := Reachable.step h2 (Step.activate _ 0 2 [(1, 1)] rfl (by decide) (by decide))
  have h4 := Reachable.step h3 (Step.decodeChunk _ [] (freshDecoder 0 2) 2 rfl rfl
    (by decide) (by decide))
  have h5 := Reachable.step h4 (Step.finishDecoding _ []
    { did := 0, totalFrames := 2, framesDecoded := 2, framesRendered := 0,
      decodingFinished := false, renderingStarted := false,
      renderingFinished := false } rfl rfl rfl)
  have h6 := Reachable.step h5 (Step.activate _ 1 1 [] rfl (by decide) (by decide))
  have h7 := Reachable.step h6 (Step.decodeChunk _
    [{ did := 0, totalFrames := 2, framesDecoded := 2, framesRendered := 0,
       decodingFinished := true, renderingStarted := false,
       renderingFinished := false }]
    (freshDecoder 1 1) 1 rfl rfl (by decide) (by decide))
  have h8 := Reachable.step h7 (Step.play _)
  have h9 := Reachable.step h8 (Step.renderPass _ 3 (by decide) rfl)
  exact h9

/-- A zero-frame decoder after the run that renders its successor. -/
def cxA : DecoderStateData :=
  { did := 0, totalFrames := 0, framesDecoded := 0, framesRendered := 0,
    decodingFinished := true, renderingStarted := false, renderingFinished := false }

/-- The one-frame successor of the zero-frame decoder, fully rendered. -/
def cxB : DecoderStateData :=
  { did := 1, totalFrames := 1, framesDecoded := 1, framesRendered := 1,
    decodingFinished := false, renderingStarted := true, renderingFinished := true }

/-- The engine after enqueueing a zero-frame decoder followed by a
one-frame decoder and rendering: the successor has started rendering
while the zero-frame predecessor is never marked rendering-finished
(no render pass ever intersects its empty frame interval). -/
def cxState : EngineState :=
  { queue := [], active := [cxA, cxB], capacity := 8, isPlaying := true,
    deviceRunning := true, nextId := 2 }

/-- The zero-frame-decoder run is an execution of the engine. -/
theorem cxState_reachable : Reachable 8 cxState := by
  have h0 : Reachable 8 (initEngine 8) := Reachable.init
  have h1 := Reachable.step h0 (Step.enqueue (initEngine 8) 0)
  have h2 := Reachable.step h1 (Step.enqueue _ 1)
  have h3 := Reachable.step h2 (Step.activate _ 0 0 [(1, 1)] rfl (by decide) (by decide))
  have h4 := Reachable.step h3 (Step.finishDecoding _ [] (freshDecoder 0 0) rfl rfl rfl)
  have h5 := Reachable.step h4 (Step.activate _ 1 1 [] rfl (by decide) (by decide))
  have h6 := Reachable.step h5 (Step.decodeChunk _
    [{ did := 0, totalFrames := 0, framesDecoded := 0, framesRendered := 0,
       decodingFinished := true, renderingStarted := false,
       renderingFinished := false }]
    (freshDecoder 1 1) 1 rfl rfl (by decide) (by decide))
  have h7 := Reachable.step h6 (Step.play _)
  have h8 := Reachable.step h7 (Step.renderPass _ 1 (by decide) rfl)
  exact h8

/-- A ten-frame decoder, half decoded, before a backward seek. -/
def skState : EngineState :=
  { queue := [],
    active := [{ did := 0, totalFrames := 10, framesDecoded := 5,
                 framesRendered := 0, decodingFinished := false,
                 renderingStarted := false, renderingFinished := false }],
    capacity := 8, isPlaying := false, deviceRunning := false, nextId := 1 }

/-- The same engine after the seek to frame 2 was honoured. -/
def skState' : EngineState :=
  { queue := [],
    active := [{ did := 0, totalFrames := 10, framesDecoded := 2,
                 framesRendered := 2, decodingFinished := false,
                 renderingStarted := false, renderingFinished := false }],
    capacity := 8, isPlaying := false, deviceRunning := false, nextId := 1 }

/-- The half-decoded state is an execution of the engine. -/
theorem skState_reachable : Reachable 8 skState := by
  have h0 : Reachable 8 (initEngine 8) := Reachable.init
  have h1 := Reachable.step h0 (Step.enqueue (initEngine 8) 10)
  have h2 := Reachable.step h1 (Step.activate _ 0 10 [] rfl (by decide) (by decide))
  have h3 := Reachable.step h2 (Step.decodeChunk _ [] (freshDecoder 0 10) 5 rfl rfl
    (by decide) (by decide))
  exact h3

/-- The backward seek is a step of the engine from the half-decoded
state. -/
theorem skState_seek : Step skState (.seekTo 2) skState' :=
  Step.seekTo skState []
    { did := 0, totalFrames := 10, framesDecoded := 5, framesRendered := 0,
      decodingFinished := false, renderingStarted := false,
      renderingFinished := false }
    2 rfl rfl (by decide) (by decide)

/-- The two-frame decoder aborted by a fatal decode error after one
frame: `DecodingFinished` is set with `framesDecoded = 1 < 2`; its one
buffered frame was rendered, but `framesRendered` can never reach
`totalFrames`, so `RenderingFinished` stays clear. -/
def abA : DecoderStateData :=
  { did := 0, totalFrames := 2, framesDecoded := 1, framesRendered := 1,
    decodingFinished := true, renderingStarted := true, renderingFinished := false }

/-- The one-frame successor of the aborted decoder, fully rendered. -/
def abB : DecoderStateData :=
  { did := 1, totalFrames := 1, framesDecoded := 1, framesRendered := 1,
    decodingFinished := false, renderingStarted := true, renderingFinished := true }

/-- The engine after the aborted-decoder run: the successor has started
rendering while the error-aborted two-frame predecessor is never marked
rendering-finished. -/
def abState : EngineState :=
  { queue := [], active := [abA, abB], capacity := 8, isPlaying := true,
    deviceRunning := true, nextId := 2 }

/-- The aborted-decoder run is an execution of the engine: decoder 0
(two frames) decodes one frame and hits a fatal error (§4.3 failure
policy); decoder 1 is then activated, decoded and rendered. -/
theorem abState_reachable : Reachable 8 abState := by
  have h0 : Reachable 8 (initEngine 8) := Reachable.init
  have h1 := Reachable.step h0 (Step.enqueue (initEngine 8) 2)
  have h2 := Reachable.step h1 (Step.enqueue _ 1)
  have h3 := Reachable.step h2 (Step.activate _ 0 2 [(1, 1)] rfl (by decide) (by decide))
  have h4 := Reachable.step h3 (Step.decodeChunk _ [] (freshDecoder 0 2) 1 rfl rfl
    (by decide) (by decide))
  have h5 := Reachable.step h4 (Step.abortDecoding _ []
    { did := 0, totalFrames := 2, framesDecoded := 1, framesRendered := 0,
      decodingFinished := false, renderingStarted := false,
      renderingFinished := false } rfl rfl)
  have h6 := Reachable.step h5 (Step.activate _ 1 1 [] rfl (by decide) (by decide))
  have h7 := Reachable.step h6 (Step.decodeChunk _
    [{ did := 0, totalFrames := 2, framesDecoded := 1, framesRendered := 0,
       decodingFinished := true, renderingStarted := false,
       renderingFinished := false }]
    (freshDecoder 1 1) 1 rfl rfl (by decide) (by decide))
  have h8 := Reachable.step h7 (Step.play _)
  have h9 := Reachable.step h8 (Step.renderPass _ 2 (by decide) rfl)
  exact h9

/-- C1 (counterexample) — the claim as stated fails in the reachable
state `cxState`: the successor's `RenderingStarted` flag is set while
the zero-frame predecessor's `RenderingFinished` flag is still clear (a
render pass only touches decoders whose frame interval intersects the
consumed span, and a zero-frame decoder's interval is empty).  It also
fails at a decoder that does have frames, in the reachable state
`abState`: there the predecessor was aborted by §4.3's fatal-error
policy with `framesDecoded = 1 < totalFrames = 2`, so its
`framesRendered` can never reach `totalFrames` and `RenderingFinished`
stays clear while the successor renders. -/
theorem gaplessOrdering_cex :
    (Reachable 8 cxState ∧
      ¬ cxState.active.Pairwise fun a b =>
          b.renderingStarted = true → a.renderingFinished = true) ∧
    (Reachable 8 abState ∧
      (abState.active.getD 0 (freshDecoder 0 0)).totalFrames = 2 ∧
      ¬ abState.active.Pairwise fun a b =>
          b.renderingStarted = true → a.renderingFinished = true) :=
  ⟨⟨cxState_reachable, by decide⟩, abState_reachable, by decide, by decide⟩

/-- C1 (amended) — for any two decoders enqueued in order, in every
reachable state of the engine's step relation the later decoder's
`RenderingStarted` flag is never set while an earlier decoder whose
decoding ran to completion (`framesDecoded = totalFrames`) and that had
at least one frame still has its `RenderingFinished` flag clear.  A
zero-frame decoder and a decoder aborted by a per-decoder fatal decode
error (§4.3 failure policy) are exempt: the render callback can never
bring their `framesRendered` to `totalFrames`. -/
theorem gaplessOrdering (cap : Nat) (s : EngineState) (h : Reachable cap s) :
    s.active.Pairwise fun a b =>
      b.renderingStarted = true → a.framesDecoded = a.totalFrames →
        0 < a.totalFrames → a.renderingFinished = true :=
  (reachable_engineInv h).2.2.2.2.1

/-- Witness for C1 at the ordinary fully rendered two-decoder run. -/
theorem gaplessOrdering_witness :
    Reachable 8 egState ∧
      egState.active.Pairwise fun a b =>
        b.renderingStarted = true → a.framesDecoded = a.totalFrames →
          0 < a.totalFrames → a.renderingFinished = true :=
  ⟨egState_reachable, gaplessOrdering 8 egState egState_reachable⟩

/-- C2 (counterexample) — the claim as stated fails: `framesDecoded` is
not monotone across a seek.  From the reachable state `skState`
(decoder 0 half decoded, `framesDecoded = 5`) the engine honours
`SeekToFrame(2)` and the same decoder's `framesDecoded` drops to 2. -/
theorem frameCounters_cex :
    Reachable 8 skState ∧ Step skState (.seekTo 2) skState' ∧
      (skState.active.getD 0 (freshDecoder 0 0)).did =
        (skState'.active.getD 0 (freshDecoder 0 0)).did ∧
      (skState.active.getD 0 (freshDecoder 0 0)).framesDecoded = 5 ∧
      (skState'.active.getD 0 (freshDecoder 0 0)).framesDecoded = 2 :=
  ⟨skState_reachable, skState_seek, by decide, by decide, by decide⟩

/-- C2 (amended) — in every reachable state every active decoder
satisfies `framesRendered ≤ framesDecoded ≤ totalFrames`, and across
every operation other than a seek both counters of a decoder are
monotonically non-decreasing (a seek resets both counters of the
current decoder to the seek target frame). -/
theorem frameCounters (cap : Nat) (s : EngineState) (h : Reachable cap s) :
    (∀ d ∈ s.active, d.framesRendered ≤ d.framesDecoded ∧
      d.framesDecoded ≤ d.totalFrames) ∧
    (∀ (act : EngineAct) (s' : EngineState), Step s act s' →
      act.isSeek = false →
      ∀ d ∈ s.active, ∀ d' ∈ s'.active, d.did = d'.did →
        d.framesRendered ≤ d'.framesRendered ∧
          d.framesDecoded ≤ d'.framesDecoded) := by
  obtain ⟨h1, h2, h3, h4, h5, h6, h7, h8⟩ := reachable_engineInv h
  have hnd : (s.active.map DecoderStateData.did).Nodup :=
    ((List.pairwise_append.mp h7).1).imp Nat.ne_of_lt
  have hinj := List.inj_on_of_nodup_map hnd
  refine ⟨h1, ?_⟩
  intro act s' hstep hseek
  cases hstep with
  | enqueue n =>
    intro d hd d' hd' hdid
    rw [hinj hd hd' hdid]
    exact ⟨Nat.le_refl _, Nat.le_refl _⟩
  | activate id n rest hq hfin hlen =>
    intro d hd d' hd' hdid
    rcases List.mem_append.mp hd' with hd' | hd'
    · rw [hinj hd hd' hdid]
      exact ⟨Nat.le_refl _, Nat.le_refl _⟩
    · simp only [List.mem_singleton] at hd'
      subst hd'
      have hlt : d.did < id := by
        refine (List.pairwise_append.mp h7).2.2 d.did
          (List.mem_map_of_mem DecoderStateData.did hd) id ?_
        rw [hq]
        exact List.mem_cons_self _ _
      rw [show (freshDecoder id n).did = id from rfl] at hdid
      omega
  | decodeChunk front dl k hsplit hnf hk hcap =>
    intro d hd d' hd' hdid
    rcases List.mem_append.mp hd' with hd' | hd'
    · have hd'mem : d' ∈ s.active := by
        rw [hsplit]
        exact List.mem_append_left _ hd'
      rw [hinj hd hd'mem hdid]
      exact ⟨Nat.le_refl _, Nat.le_refl _⟩
    · simp only [List.mem_singleton] at hd'
      subst hd'
      have hdlmem : dl ∈ s.active := by
        rw [hsplit]
        exact List.mem_append_right _ (List.mem_singleton_self dl)
      have : d = dl := hinj hd hdlmem hdid
      subst this
      exact ⟨Nat.le_refl _, Nat.le_add_right _ _⟩
  | finishDecoding front dl hsplit hnf heof =>
    intro d hd d' hd' hdid
    rcases List.mem_append.mp hd' with hd' | hd'
    · have hd'mem : d' ∈ s.active := by
        rw [hsplit]
        exact List.mem_append_left _ hd'
      rw [hinj hd hd'mem hdid]
      exact ⟨Nat.le_refl _, Nat.le_refl _⟩
    · simp only [List.mem_singleton] at hd'
      subst hd'
      have hdlmem : dl ∈ s.active := by
        rw [hsplit]
        exact List.mem_append_right _ (List.mem_singleton_self dl)
      have : d = dl := hinj hd hdlmem hdid
      subst this
      exact ⟨Nat.le_refl _, Nat.le_refl _⟩
  | abortDecoding front dl hsplit hnf =>
    intro d hd d' hd' hdid
    rcases List.mem_append.mp hd' with hd' | hd'
    · have hd'mem : d' ∈ s.active := by
        rw [hsplit]
        exact List.mem_append_left _ hd'
      rw [hinj hd hd'mem hdid]
      exact ⟨Nat.le_refl _, Nat.le_refl _⟩
    · simp only [List.mem_singleton] at hd'
      subst hd'
      have hdlmem : dl ∈ s.active := by
        rw [hsplit]
        exact List.mem_append_right _ (List.mem_singleton_self dl)
      have : d = dl := hinj hd hdlmem hdid
      subst this
      exact ⟨Nat.le_refl _, Nat.le_refl _⟩
  | seekTo front dl f hsplit hnf hf hdrained =>
    simp [EngineAct.isSeek] at hseek
  | renderPass k hk hrun =>
    intro d hd d' hd' hdid
    obtain ⟨d₀, hd₀, hdid₀, _, hD, _, hR, _, _, _⟩ :=
      distribute_mem k s.active d' hd'
    have : d = d₀ := hinj hd hd₀ (by rw [hdid, hdid₀])
    subst this
    exact ⟨hR, Nat.le_of_eq hD⟩
  | collect =>
    intro d hd d' hd' hdid
    have hd'mem : d' ∈ s.active := (List.filter_sublist s.active).mem hd'
    rw [hinj hd hd'mem hdid]
    exact ⟨Nat.le_refl _, Nat.le_refl _⟩
  | play =>
    intro d hd d' hd' hdid
    rw [hinj hd hd' hdid]
    exact ⟨Nat.le_refl _, Nat.le_refl _⟩
  | pause =>
    intro d hd d' hd' hdid
    rw [hinj hd hd' hdid]
    exact ⟨Nat.le_refl _, Nat.le_refl _⟩
  | stop =>
    intro d hd d' hd'
    cases hd'

/-- Witness for C2 at the ordinary fully rendered two-decoder run. -/
theorem frameCounters_witness :
    Reachable 8 egState ∧
      ∀ d ∈ egState.active, d.framesRendered ≤ d.framesDecoded ∧
        d.framesDecoded ≤ d.totalFrames :=
  ⟨egState_reachable, (frameCounters 8 egState egState_reachable).1⟩

/-- C3 — in every reachable state at most
`kActiveDecoderArraySize = 8` decoder states are live simultaneously:
the active list never has more than 8 entries, and the constant is 8
(src/Player/AudioPlayer.h line 50 together with the declaration
`DecoderStateData *mActiveDecoders [kActiveDecoderArraySize]`,
line 200). -/
theorem activeDecoders_bounded (cap : Nat) (s : EngineState)
    (h : Reachable cap s) :
    s.active.length ≤ kActiveDecoderArraySize ∧ kActiveDecoderArraySize = 8 :=
  ⟨(reachable_engineInv h).2.2.2.2.2.1, rfl⟩

/-- Witness for C3 at the ordinary fully rendered two-decoder run. -/
theorem activeDecoders_bounded_witness :
    Reachable 8 egState ∧ egState.active.length ≤ kActiveDecoderArraySize :=
  ⟨egState_reachable, (activeDecoders_bounded 8 egState egState_reachable).1⟩

/-- C4 (counterexample) — `Play` is a public controller operation
declared `void Play();` (header line 82): it neither returns a boolean
success indicator nor takes an error-kind out-parameter, so the claimed
convention fails. -/
theorem controllerErrorConvention_cex :
    { name := "Play", ret := CppType.void, params := [] } ∈ publicControllerOps ∧
      returnsBoolSuccess
        { name := "Play", ret := CppType.void, params := [] } = false ∧
      hasErrorOutParam
        { name := "Play", ret := CppType.void, params := [] } = false := by
  decide

/-- C4 (amended) — no public controller operation takes an error-kind
out-parameter; the seek, volume, device, stream and playlist operations
return a bare boolean success indicator, while the transport operations
`Play`, `Pause`, `PlayPause` and `Stop` return `void` and the remaining
operations return queried values directly. -/
theorem controllerErrorConvention :
    (publicControllerOps.all fun m => !hasErrorOutParam m) = true ∧
      (publicControllerOps.filter (fun m => m.ret == CppType.void)).map
          MethodSig.name = ["Play", "Pause", "PlayPause", "Stop"] ∧
      (publicControllerOps.filter returnsBoolSuccess).map MethodSig.name =
        ["IsPlaying", "SeekForward", "SeekBackward", "SeekToTime",
         "SeekToFrame", "SupportsSeeking", "GetMasterVolume",
         "SetMasterVolume", "GetVolumeForChannel", "SetVolumeForChannel",
         "SetOutputDeviceUID", "SetOutputDeviceID",
         "GetOutputDeviceSampleRate", "SetOutputDeviceSampleRate",
         "OutputDeviceIsHogged", "StartHoggingOutputDevice",
         "StopHoggingOutputDevice", "GetOutputStreams",
         "GetOutputStreamVirtualFormat", "SetOutputStreamVirtualFormat",
         "GetOutputStreamPhysicalFormat", "SetOutputStreamPhysicalFormat",
         "EnqueueURL", "EnqueueDecoder", "ClearQueuedDecoders"] := by
  refine ⟨?_, ?_, ?_⟩ <;> decide

/-- C5 — `Pause` is idempotent: pausing twice leaves the state
identical to pausing once. -/
theorem pause_idempotent (p : PlayerState) : Pause (Pause p) = Pause p :=
  rfl

/-- A list lookup with default either returns the default or a member
of the list. -/
theorem getD_default_or_mem {α : Type} (xs : List α) (n : Nat) (d : α) :
    xs.getD n d = d ∨ xs.getD n d ∈ xs := by
  induction xs generalizing n with
  | nil => exact Or.inl rfl
  | cons x rest ih =>
    cases n with
    | zero => exact Or.inr (List.mem_cons_self _ _)
    | succ n =>
      rcases ih n with h | h
      · exact Or.inl h
      · exact Or.inr (List.mem_cons_of_mem _ h)

/-- A sample of bit depth `bits` within its signed range normalizes
into `[-1, 1)`. -/
theorem normalizeSample_range (bits : Nat) (s : Int) (_hbits : 1 ≤ bits)
    (hlo : -(2 ^ (bits - 1) : Int) ≤ s) (hhi : s < 2 ^ (bits - 1)) :
    -1 ≤ normalizeSample bits s ∧ normalizeSample bits s < 1 := by
  have hc : (0 : ℚ) < (2 ^ (bits - 1) : ℚ) := by positivity
  unfold normalizeSample
  constructor
  · rw [le_div_iff₀ hc]
    have : ((-(2 ^ (bits - 1) : Int) : Int) : ℚ) ≤ (s : ℚ) := by
      exact_mod_cast hlo
    push_cast at this
    linarith
  · rw [div_lt_one hc]
    exact_mod_cast hhi

/-- C7 — the decode-thread conversion to the canonical form produces
deinterleaved data, one list per channel, with every sample value in
`[-1, 1)`, provided the source samples are within the signed range of
their bit depth. -/
theorem canonicalForm_normalized (bits channels : Nat) (xs : List Int)
    (hbits : 1 ≤ bits)
    (hrange : ∀ x ∈ xs, -(2 ^ (bits - 1) : Int) ≤ x ∧ x < 2 ^ (bits - 1)) :
    (convertToCanonical bits channels xs).length = channels ∧
      ∀ ch ∈ convertToCanonical bits channels xs, ∀ q ∈ ch,
        -1 ≤ q ∧ q < 1 := by
  constructor
  · simp [convertToCanonical, deinterleave]
  · intro ch hch q hq
    simp only [convertToCanonical, deinterleave, List.mem_map] at hch
    obtain ⟨ch₀, ⟨c, _, hch₀⟩, hch'⟩ := hch
    subst hch'
    simp only [List.mem_map] at hq
    obtain ⟨x, hx, hq'⟩ := hq
    subst hq'
    rw [← hch₀] at hx
    simp only [List.mem_map] at hx
    obtain ⟨i, _, hx'⟩ := hx
    subst hx'
    rcases getD_default_or_mem xs (i * channels + c) 0 with hg | hg
    · rw [hg]
      refine normalizeSample_range bits 0 hbits ?_ ?_
      · have : (0 : Int) < 2 ^ (bits - 1) := by positivity
        omega
      · positivity
    · obtain ⟨hlo, hhi⟩ := hrange _ hg
      exact normalizeSample_range bits _ hbits hlo hhi

/-- Witness for C7: a 16-bit stereo frame span covering the extremes of
the signed sample range. -/
theorem canonicalForm_normalized_witness :
    (1 ≤ 16 ∧ ∀ x ∈ [(-32768 : Int), 32767, 0, 1],
      -(2 ^ (16 - 1) : Int) ≤ x ∧ x < 2 ^ (16 - 1)) ∧
    ((convertToCanonical 16 2 [(-32768 : Int), 32767, 0, 1]).length = 2 ∧
      ∀ ch ∈ convertToCanonical 16 2 [(-32768 : Int), 32767, 0, 1],
        ∀ q ∈ ch, -1 ≤ q ∧ q < 1) :=
  ⟨⟨by decide, by decide⟩,
    canonicalForm_normalized 16 2 [(-32768 : Int), 32767, 0, 1]
      (by decide) (by decide)⟩

/-- C8 — the wrapped lock primitives report failure by throwing:
`Mutex::Lock` and `Mutex::Unlock` throw a `std::runtime_error` exactly
when the underlying pthread call returns a non-zero code,
`Mutex::TryLock` throws exactly when the call fails with a code other
than `0` or `EBUSY`, and `Mutex::Lock` returns `true` precisely when
the lock was obtained (code `0`). -/
theorem mutex_error_reporting (rc : Nat) :
    threw (Mutex.Lock rc) = pthreadOpFails rc ∧
      threw (Mutex.Unlock rc) = pthreadOpFails rc ∧
      threw (Mutex.TryLock rc) = pthreadTryFails rc ∧
      (Mutex.Lock rc = .ok true ↔ rc = 0) := by
  by_cases h0 : rc = 0
  · subst h0
    refine ⟨rfl, rfl, rfl, ?_⟩
    simp [Mutex.Lock]
  · by_cases hb : rc = EBUSY
    · subst hb
      refine ⟨rfl, rfl, rfl, ?_⟩
      simp [Mutex.Lock, EBUSY]
    · refine ⟨?_, ?_, ?_, ?_⟩
      · simp [Mutex.Lock, threw, pthreadOpFails, h0]
      · simp [Mutex.Unlock, threw, pthreadOpFails, h0]
      · simp [Mutex.TryLock, threw, pthreadTryFails, h0, hb]
      · simp [Mutex.Lock, h0]

/-- Witness for C8 at the codes `0` (success), `22` (`EINVAL`, a
failure) and `16` (`EBUSY`, contention but not a failure). -/
theorem mutex_error_reporting_witness :
    threw (Mutex.Lock 0) = pthreadOpFails 0 ∧
      threw (Mutex.Lock 22) = pthreadOpFails 22 ∧
      threw (Mutex.TryLock 16) = pthreadTryFails 16 :=
  ⟨(mutex_error_reporting 0).1, (mutex_error_reporting 22).1,
    (mutex_error_reporting 16).2.2.1⟩

/-- C9 — `GetRemainingFrames` returns exactly
`GetTotalFrames() - GetCurrentFrame()` whenever that difference fits in
an `SInt64` (frame counts always do), and `GetRemainingTime` returns
exactly `GetTotalTime() - GetCurrentTime()`. -/
theorem remaining_queries (p : PlayerState)
    (hlo : -(2 ^ 63) ≤ GetTotalFrames p - GetCurrentFrame p)
    (hhi : GetTotalFrames p - GetCurrentFrame p < 2 ^ 63) :
    GetRemainingFrames p = GetTotalFrames p - GetCurrentFrame p ∧
      GetRemainingTime p = GetTotalTime p - GetCurrentTime p := by
  constructor
  · unfold GetRemainingFrames wrapInt64
    have h63 : (2 : Int) ^ 63 = 9223372036854775808 := by norm_num
    have h64 : (2 : Int) ^ 64 = 18446744073709551616 := by norm_num
    rw [h63, h64]
    rw [h63] at hlo hhi
    omega
  · rfl

/-- Witness for C9: a player at frame 40 of 100, 4 s into 10 s. -/
theorem remaining_queries_witness :
    (-(2 ^ 63) ≤ GetTotalFrames ⟨true, true, 100, 40, 10, 4⟩ -
        GetCurrentFrame ⟨true, true, 100, 40, 10, 4⟩ ∧
      GetTotalFrames ⟨true, true, 100, 40, 10, 4⟩ -
        GetCurrentFrame ⟨true, true, 100, 40, 10, 4⟩ < 2 ^ 63) ∧
    GetRemainingFrames ⟨true, true, 100, 40, 10, 4⟩ =
      GetTotalFrames ⟨true, true, 100, 40, 10, 4⟩ -
        GetCurrentFrame ⟨true, true, 100, 40, 10, 4⟩ :=
  ⟨⟨by decide, by decide⟩,
    (remaining_queries ⟨true, true, 100, 40, 10, 4⟩
      (by decide) (by decide)).1⟩

/-- C10 — `PlayPause` is an exact toggle: when `IsPlaying()` it behaves
as `Pause()`, otherwise as `Play()`, and `IsPlaying` returns the
`mIsPlaying` field unchanged. -/
theorem playPause_toggle (p : PlayerState) :
    (IsPlaying p = true → PlayPause p = Pause p) ∧
      (IsPlaying p = false → PlayPause p = Play p) ∧
      IsPlaying p = p.mIsPlaying := by
  refine ⟨?_, ?_, rfl⟩ <;> intro h <;> simp [PlayPause, h]

/-- Witness for C10 at a playing and at a paused player. -/
theorem playPause_toggle_witness :
    (IsPlaying ⟨true, true, 0, 0, 0, 0⟩ = true ∧
      PlayPause ⟨true, true, 0, 0, 0, 0⟩ = Pause ⟨true, true, 0, 0, 0, 0⟩) ∧
    (IsPlaying ⟨false, false, 0, 0, 0, 0⟩ = false ∧
      PlayPause ⟨false, false, 0, 0, 0, 0⟩ = Play ⟨false, false, 0, 0, 0, 0⟩) :=
  ⟨⟨rfl, (playPause_toggle ⟨true, true, 0, 0, 0, 0⟩).1 rfl⟩,
    ⟨rfl, (playPause_toggle ⟨false, false, 0, 0, 0, 0⟩).2.1 rfl⟩⟩
